import Mathlib

/-!
Shallow embedding of the transformer-visualization engine: tokenizer,
deterministic weight generation, causal self-attention, feed-forward block,
output projection, sampling filter and the autoregressive step controller.
JavaScript numbers are modelled as exact rationals; the transcendental
functions `Math.sin`, `Math.exp`, `Math.sqrt` are parameters of the embedding
(bundled in `JsMath`), constrained in each theorem by exactly the properties
of their IEEE-double counterparts that the proof needs.  `Number.toFixed(k)`
followed by `parseFloat` is modelled as rounding to `k` decimal places.
`NaN` values (arising from out-of-bounds array reads inside `dotProduct`)
are modelled as `Option.none`.
-/

namespace LLMSim

/-- Rounding to `k` decimal places, the model of `parseFloat(x.toFixed(k))`. -/
def roundTo (k : Nat) (q : ℚ) : ℚ :=
  ((round (q * 10 ^ k) : ℤ) : ℚ) / 10 ^ k

/-- Round to 2 decimal places (`toFixed(2)`). -/
def round2 (q : ℚ) : ℚ := roundTo 2 q

/-- Round to 4 decimal places (`toFixed(4)`). -/
def round4 (q : ℚ) : ℚ := roundTo 4 q

/-- The transcendental functions of the JavaScript `Math` object, as
parameters of the embedding. -/
structure JsMath where
  sin : ℚ → ℚ
  exp : ℚ → ℚ
  sqrt : ℚ → ℚ

/-- A matrix is a list of rows, as in the source (`number[][]`). -/
abbrev Matrix := List (List ℚ)

/-- Model of `Math.max(...l)` for the nonempty rows the code applies it to
(on `[]` the JS call yields `-Infinity`; no claim exercises that case). -/
def maxList : List ℚ → ℚ
  | [] => 0
  | x :: xs => xs.foldl max x

/-- An `m×n` grid: `m` rows, each of length `n`. -/
def IsGrid (a : Matrix) (m n : Nat) : Prop :=
  a.length = m ∧ ∀ row ∈ a, row.length = n

theorem le_foldl_max (l : List ℚ) : ∀ init : ℚ, init ≤ l.foldl max init := by
  induction l with
  | nil => intro init; exact le_refl _
  | cons y ys ih =>
    intro init
    exact le_trans (le_max_left init y) (ih (max init y))

theorem mem_le_foldl_max (l : List ℚ) : ∀ (init x : ℚ), x ∈ l → x ≤ l.foldl max init := by
  induction l with
  | nil => intro _ _ hx; cases hx
  | cons y ys ih =>
    intro init x hx
    rcases List.mem_cons.mp hx with rfl | hx'
    · exact le_trans (le_max_right init x) (le_foldl_max ys (max init x))
    · exact ih (max init y) x hx'

theorem foldl_max_mem (l : List ℚ) :
    ∀ init : ℚ, l.foldl max init = init ∨ l.foldl max init ∈ l := by
  induction l with
  | nil => intro init; exact Or.inl rfl
  | cons y ys ih =>
    intro init
    rcases ih (max init y) with heq | hmem
    · rcases max_choice init y with h1 | h1
      · exact Or.inl (by simpa [h1] using heq)
      · exact Or.inr (List.mem_cons.mpr (Or.inl (by simpa [h1] using heq)))
    · exact Or.inr (List.mem_cons.mpr (Or.inr hmem))

theorem maxList_le_of_mem {l : List ℚ} {x : ℚ} (hx : x ∈ l) : x ≤ maxList l := by
  match l with
  | [] => cases hx
  | y :: ys =>
    rcases List.mem_cons.mp hx with rfl | hx'
    · exact le_foldl_max ys x
    · exact mem_le_foldl_max ys y x hx'

theorem maxList_mem {l : List ℚ} (h : l ≠ []) : maxList l ∈ l := by
  match l with
  | [] => exact absurd rfl h
  | y :: ys =>
    rcases foldl_max_mem ys y with heq | hmem
    · exact List.mem_cons.mpr (Or.inl heq)
    · exact List.mem_cons.mpr (Or.inr hmem)

/-- The rounding error of `toFixed(k)` is at most half a unit in the last
decimal place. -/
theorem abs_roundTo_sub_le (k : Nat) (q : ℚ) :
    |roundTo k q - q| ≤ 1 / (2 * 10 ^ k) := by
  have h10 : (0:ℚ) < 10 ^ k := by positivity
  have hr : |((round (q * 10 ^ k) : ℤ) : ℚ) - q * 10 ^ k| ≤ 1 / 2 := by
    rw [abs_sub_comm]
    exact abs_sub_round (q * 10 ^ k)
  have key : roundTo k q - q
      = (((round (q * 10 ^ k) : ℤ) : ℚ) - q * 10 ^ k) / 10 ^ k := by
    rw [roundTo]
    field_simp
    ring
  rw [key, abs_div, abs_of_pos h10,
    show (1:ℚ) / (2 * 10 ^ k) = (1 / 2) / 10 ^ k by ring]
  exact (div_le_div_iff_of_pos_right h10).mpr hr

theorem roundTo_zero (k : Nat) : roundTo k 0 = 0 := by
  simp [roundTo]

/-- Whitespace characters, the model of the regex class `\s`. -/
def isWsChar (c : Char) : Bool :=
  c == ' ' || c == '\t' || c == '\n' || c == '\r'

/-- The punctuation class `[.,!]` of the tokenizer regexes. -/
def isPunctChar (c : Char) : Bool :=
  c == '.' || c == ',' || c == '!'

/-- One `foldr` step of whitespace splitting: the pair is
(current word being built, completed words to the right). -/
def splitWsStep (c : Char) (acc : List Char × List (List Char)) :
    List Char × List (List Char) :=
  if isWsChar c then ([], if acc.1 = [] then acc.2 else acc.1 :: acc.2)
  else (c :: acc.1, acc.2)

/-- Flush the pending word. -/
def splitWsFin (acc : List Char × List (List Char)) : List (List Char) :=
  if acc.1 = [] then acc.2 else acc.1 :: acc.2

/-- Split on whitespace runs, dropping empty pieces: the model of
`text.trim().split(/\s+/)` combined with the `if (!word) continue` guard
that skips empty strings. -/
def splitWs (s : List Char) : List (List Char) :=
  splitWsFin (s.foldr splitWsStep ([], []))

theorem foldr_splitWsStep_acc (a : List Char) (X : List (List Char)) :
    a.foldr splitWsStep ([], X)
      = ((a.foldr splitWsStep ([], [])).1, (a.foldr splitWsStep ([], [])).2 ++ X) := by
  induction a with
  | nil => simp
  | cons c cs ih =>
    simp only [List.foldr_cons, ih, splitWsStep]
    by_cases hws : isWsChar c
    · simp only [hws, if_pos]
      by_cases hnil : (cs.foldr splitWsStep ([], [])).1 = [] <;>
        simp [hnil]
    · simp [hws]

theorem splitWs_append_ws (a b : List Char) :
    splitWs (a ++ ' ' :: b) = splitWs a ++ splitWs b := by
  unfold splitWs
  rw [List.foldr_append]
  have hstep : List.foldr splitWsStep ([], []) (' ' :: b)
      = ([], splitWsFin (b.foldr splitWsStep ([], []))) := by
    simp only [List.foldr_cons, splitWsStep, splitWsFin, isWsChar]
    norm_num
  rw [List.foldr_cons] at hstep ⊢
  rw [show splitWsStep ' ' (b.foldr splitWsStep ([], []))
      = ([], splitWsFin (b.foldr splitWsStep ([], []))) from hstep]
  rw [foldr_splitWsStep_acc a (splitWsFin (b.foldr splitWsStep ([], [])))]
  unfold splitWsFin
  by_cases hnil : (a.foldr splitWsStep ([], [])).1 = [] <;> simp [hnil]

theorem foldr_splitWsStep_nonws (w : List Char) (hw : ∀ c ∈ w, isWsChar c = false) :
    w.foldr splitWsStep ([], []) = (w, []) := by
  induction w with
  | nil => rfl
  | cons c cs ih =>
    have hc : isWsChar c = false := hw c (by simp)
    have ih' := ih (fun c hc => hw c (by simp [hc]))
    simp [splitWsStep, ih', hc]

theorem splitWs_nonws {w : List Char} (hne : w ≠ [])
    (hw : ∀ c ∈ w, isWsChar c = false) : splitWs w = [w] := by
  unfold splitWs
  rw [foldr_splitWsStep_nonws w hw]
  simp [splitWsFin, hne]

theorem splitWs_nil : splitWs [] = [] := rfl

/-- Insert spaces around every punctuation character: the model of
`text.replace(/([.,!])/g, " $1 ")`. -/
def insertP : List Char → List Char
  | [] => []
  | c :: cs => (if isPunctChar c then [' ', c, ' '] else [c]) ++ insertP cs

theorem insertP_append (a b : List Char) :
    insertP (a ++ b) = insertP a ++ insertP b := by
  induction a with
  | nil => rfl
  | cons c cs ih => simp [insertP, ih]

theorem insertP_nonpunct {w : List Char} (hw : ∀ c ∈ w, isPunctChar c = false) :
    insertP w = w := by
  induction w with
  | nil => rfl
  | cons c cs ih =>
    have hc := hw c (by simp)
    simp [insertP, hc, ih (fun c hc => hw c (by simp [hc]))]

/-- Character-by-character scan implementing
`.replace(/\s+([.,!])/g, "$1")`: `buf` is the run of whitespace read since
the last non-whitespace output.  A punctuation character discards the
pending run (the regex deletes the whitespace before it); any other
non-whitespace character flushes the run unchanged. -/
def rmSpGo : List Char → List Char → List Char
  | buf, [] => buf
  | buf, c :: cs =>
    if isWsChar c then rmSpGo (buf ++ [c]) cs
    else if isPunctChar c then c :: rmSpGo [] cs
    else buf ++ c :: rmSpGo [] cs

/-- Remove whitespace runs that precede a punctuation character: the model of
`.replace(/\s+([.,!])/g, "$1")`. -/
def rmSp (l : List Char) : List Char := rmSpGo [] l

theorem rmSp_append_nonws (w t : List Char) (hw : ∀ c ∈ w, isWsChar c = false) :
    rmSp (w ++ t) = w ++ rmSp t := by
  unfold rmSp
  induction w with
  | nil => rfl
  | cons c cs ih =>
    have hc := hw c (by simp)
    rw [List.cons_append, rmSpGo]
    rw [if_neg (by simp [hc])]
    by_cases hp : isPunctChar c
    · rw [if_pos hp, ih (fun c hc => hw c (by simp [hc]))]
      rfl
    · rw [if_neg hp, ih (fun c hc => hw c (by simp [hc]))]
      rfl

/-- The model of `Array.prototype.join(" ")`. -/
def joinSpRest : List (List Char) → List Char
  | [] => []
  | u :: us => ' ' :: (u ++ joinSpRest us)

/-- Join a list of words with single spaces. -/
def joinSp : List (List Char) → List Char
  | [] => []
  | u :: us => u ++ joinSpRest us

/-- The model of `Array.prototype.find` / `indexOf` over an array: the
index of the first occurrence, if any. -/
def findIdxA {α : Type} [DecidableEq α] (w : α) : List α → Option Nat
  | [] => none
  | t :: ts => if t = w then some 0 else (findIdxA w ts).map (· + 1)

theorem findIdxA_eq_none {α : Type} [DecidableEq α] {w : α} {l : List α}
    (hw : w ∉ l) : findIdxA w l = none := by
  induction l with
  | nil => rfl
  | cons t ts ih =>
    have ht : t ≠ w := fun h => hw (by simp [h])
    simp only [findIdxA, if_neg ht, ih (fun h => hw (by simp [h])), Option.map_none']

theorem findIdxA_getD {α : Type} [DecidableEq α] {w : α} {l : List α}
    (hw : w ∈ l) (d : α) :
    ∃ i, findIdxA w l = some i ∧ l.getD i d = w := by
  induction l with
  | nil => cases hw
  | cons t ts ih =>
    by_cases ht : t = w
    · exact ⟨0, by simp [findIdxA, ht]⟩
    · have hw' : w ∈ ts := by
        rcases List.mem_cons.mp hw with h | h
        · exact absurd h.symm ht
        · exact h
      obtain ⟨i, h1, h2⟩ := ih hw'
      exact ⟨i + 1, by simp [findIdxA, ht, h1], by simpa using h2⟩

end LLMSim

namespace Part000

open LLMSim

/-- `src/unnamed/part_000`: the fixed vocabulary (`constants`). -/
def VOCABULARY : List (List Char) :=
  [("<PAD>").toList, ("<START>").toList, ("<END>").toList, ("<UNK>").toList,
   ("I").toList, ("like").toList, ("cats").toList, ("dogs").toList,
   ("and").toList, ("you").toList, ("are").toList, ("cute").toList,
   ("very").toList, ("much").toList, (".").toList, ("!").toList]

/-- `generateMatrix(rows, cols, seed)`: `Math.sin(i*10 + j*20 + seed) * 0.5`
per entry.  Appears verbatim in `part_000` and `part_005`. -/
def generateMatrix (m : JsMath) (rows cols : Nat) (seed : ℚ) : Matrix :=
  (List.range rows).map fun (i : Nat) =>
    (List.range cols).map fun (j : Nat) =>
      m.sin ((i : ℚ) * 10 + (j : ℚ) * 20 + seed) * (1/2)

/-- Id of the first vocabulary entry whose text is `w`
(`TOKENS.find(t => t.text === word)`); the token's `text` field is recovered
through `tokText`. -/
def findTok (w : List Char) : Option Nat := findIdxA w VOCABULARY

/-- `TOKENS.find(t => t.text === "<UNK>")!` — the unknown-token id. -/
def unkTok : Nat := (findTok (("<UNK>").toList)).getD 0

/-- `TOKENS.find(t => t.text === "<START>")!` — the start-token id. -/
def startTok : Nat := (findTok (("<START>").toList)).getD 0

/-- The token pushed for one word: the matching vocabulary token if found,
otherwise the unknown token. -/
def lookupWord (w : List Char) : Nat := (findTok w).getD unkTok

/-- `part_000` `tokenize`: separate punctuation with spaces, split on
whitespace (skipping empty words), prepend the start token, and look every
word up case-sensitively, defaulting to the unknown token. -/
def tokenize (s : List Char) : List Nat :=
  startTok :: (splitWs (insertP s)).map lookupWord

/-- The `text` field of the token with id `id`. -/
def tokText (id : Nat) : List Char := VOCABULARY.getD id []

/-- `part_000` `detokenize`: drop start/pad tokens, join the remaining token
texts with single spaces, then remove whitespace preceding punctuation. -/
def detokenize (ids : List Nat) : List Char :=
  rmSp (joinSp ((ids.map tokText).filter
    (fun t => !(t == ("<START>").toList) && !(t == ("<PAD>").toList))))

/-- Canonical text of a token sequence: words separated by single spaces,
punctuation attached directly to what precedes it.  This is the whitespace
normalization `detokenize` produces, so the round-trip claim is stated for
inputs already in this form (any other whitespace layout of the same units
normalizes to it). -/
def renderRest : List (List Char) → List Char
  | [] => []
  | u :: us => (if u = ['.'] ∨ u = ['!'] then u else ' ' :: u) ++ renderRest us

/-- Render a unit list: first unit verbatim, later units via `renderRest`. -/
def renderUnits : List (List Char) → List Char
  | [] => []
  | u :: us => u ++ renderRest us

/-- A unit the round trip can preserve: either a punctuation token that is in
the vocabulary (`.` or `!` — note `,` is *not* in the vocabulary), or an
in-vocabulary word that `detokenize` keeps (not `<START>`/`<PAD>`) and that
contains no whitespace or punctuation characters. -/
def GoodUnit (u : List Char) : Prop :=
  (u = ['.'] ∨ u = ['!']) ∨
  (u ∈ VOCABULARY ∧ u ≠ ("<START>").toList ∧ u ≠ ("<PAD>").toList ∧ u ≠ [] ∧
    ∀ c ∈ u, LLMSim.isWsChar c = false ∧ LLMSim.isPunctChar c = false)

instance (u : List Char) : Decidable (GoodUnit u) := by
  unfold GoodUnit
  infer_instance

theorem goodUnit_facts {u : List Char} (h : GoodUnit u) :
    u ∈ VOCABULARY ∧ u ≠ ("<START>").toList ∧ u ≠ ("<PAD>").toList ∧ u ≠ [] ∧
    ∀ c ∈ u, LLMSim.isWsChar c = false := by
  rcases h with h | h
  · rcases h with rfl | rfl <;> exact ⟨by decide, by decide, by decide, by decide, by decide⟩
  · exact ⟨h.1, h.2.1, h.2.2.1, h.2.2.2.1, fun c hc => (h.2.2.2.2 c hc).1⟩

end Part000

namespace LLMSim

open Part000

theorem insertP_renderRest_space (us : List (List Char))
    (hgood : ∀ u ∈ us, GoodUnit u) :
    us = [] ∨ ∃ t, insertP (renderRest us) = ' ' :: t := by
  match us with
  | [] => exact Or.inl rfl
  | u :: rest =>
    refine Or.inr ?_
    rcases hgood u (by simp) with hp | hword
    · rcases hp with rfl | rfl
      · exact ⟨'.' :: ' ' :: insertP (renderRest rest), by simp [renderRest, insertP, isPunctChar]⟩
      · exact ⟨'!' :: ' ' :: insertP (renderRest rest), by simp [renderRest, insertP, isPunctChar]⟩
    · have hne : ¬(u = ['.'] ∨ u = ['!']) := by
        rintro (rfl | rfl)
        · exact absurd (hword.2.2.2.2 '.' (by simp)).2 (by decide)
        · exact absurd (hword.2.2.2.2 '!' (by simp)).2 (by decide)
      refine ⟨insertP (u ++ renderRest rest), ?_⟩
      rw [renderRest, if_neg hne]
      simp [insertP, isPunctChar]

theorem splitWs_word_head {w : List Char} (hne : w ≠ [])
    (hw : ∀ c ∈ w, isWsChar c = false) (t : List Char)
    (ht : t = [] ∨ ∃ t', t = ' ' :: t') :
    splitWs (w ++ t) = w :: splitWs t := by
  rcases ht with rfl | ⟨t', rfl⟩
  · rw [List.append_nil, splitWs_nonws hne hw, splitWs_nil]
  · rw [splitWs_append_ws, splitWs_nonws hne hw]
    rw [show (' ' :: t' : List Char) = [] ++ ' ' :: t' from rfl, splitWs_append_ws,
      splitWs_nil, List.nil_append]
    rfl

theorem splitWs_insertP_renderRest (us : List (List Char))
    (hgood : ∀ u ∈ us, GoodUnit u) :
    splitWs (insertP (renderRest us)) = us := by
  induction us with
  | nil => rfl
  | cons u rest ih =>
    have ih' := ih (fun v hv => hgood v (by simp [hv]))
    have hspace := insertP_renderRest_space rest (fun v hv => hgood v (by simp [hv]))
    rcases hgood u (by simp) with hp | hword
    · have hins : insertP (renderRest (u :: rest))
          = [] ++ ' ' :: (u ++ (' ' :: insertP (renderRest rest))) := by
        rcases hp with rfl | rfl <;> simp [renderRest, insertP_append, insertP, isPunctChar]
      rw [hins, splitWs_append_ws, splitWs_nil, List.nil_append]
      have hu : ∀ c ∈ u, isWsChar c = false := (goodUnit_facts (Or.inl hp)).2.2.2.2
      have hune : u ≠ [] := (goodUnit_facts (Or.inl hp)).2.2.2.1
      rw [splitWs_word_head hune hu (' ' :: insertP (renderRest rest))
        (Or.inr ⟨_, rfl⟩)]
      rw [show (' ' :: insertP (renderRest rest) : List Char)
          = [] ++ ' ' :: insertP (renderRest rest) from rfl, splitWs_append_ws,
        splitWs_nil, List.nil_append, ih']
    · have hne : ¬(u = ['.'] ∨ u = ['!']) := by
        rintro (rfl | rfl)
        · exact absurd (hword.2.2.2.2 '.' (by simp)).2 (by decide)
        · exact absurd (hword.2.2.2.2 '!' (by simp)).2 (by decide)
      have hins : insertP (renderRest (u :: rest))
          = [] ++ ' ' :: (u ++ insertP (renderRest rest)) := by
        rw [renderRest, if_neg hne]
        rw [show ((' ' :: u) ++ renderRest rest : List Char)
            = ' ' :: (u ++ renderRest rest) from rfl]
        rw [show (' ' :: (u ++ renderRest rest) : List Char)
            = [' '] ++ (u ++ renderRest rest) from rfl, insertP_append,
          insertP_append]
        have hip : insertP u = u :=
          insertP_nonpunct (fun c hc => (hword.2.2.2.2 c hc).2)
        simp [insertP, isPunctChar, hip]
      have hspace' : insertP (renderRest rest) = [] ∨
          ∃ t', insertP (renderRest rest) = ' ' :: t' := by
        rcases hspace with rfl | h
        · exact Or.inl rfl
        · exact Or.inr h
      rw [hins, splitWs_append_ws, splitWs_nil, List.nil_append]
      rw [splitWs_word_head hword.2.2.2.1
        (fun c hc => (hword.2.2.2.2 c hc).1) _ hspace']
      rw [ih']

theorem splitWs_insertP_renderUnits (us : List (List Char))
    (hgood : ∀ u ∈ us, GoodUnit u) :
    splitWs (insertP (renderUnits us)) = us := by
  match us with
  | [] => rfl
  | u :: rest =>
    have ih' := splitWs_insertP_renderRest rest (fun v hv => hgood v (by simp [hv]))
    have hspace := insertP_renderRest_space rest (fun v hv => hgood v (by simp [hv]))
    rcases hgood u (by simp) with hp | hword
    · have hins : insertP (renderUnits (u :: rest))
          = ' ' :: (u ++ (' ' :: insertP (renderRest rest))) := by
        rcases hp with rfl | rfl <;> simp [renderUnits, renderRest, insertP_append, insertP, isPunctChar]
      rw [hins, show (' ' :: (u ++ (' ' :: insertP (renderRest rest))) : List Char)
          = [] ++ ' ' :: (u ++ (' ' :: insertP (renderRest rest))) from rfl,
        splitWs_append_ws, splitWs_nil, List.nil_append]
      have hu : ∀ c ∈ u, isWsChar c = false := (goodUnit_facts (Or.inl hp)).2.2.2.2
      have hune : u ≠ [] := (goodUnit_facts (Or.inl hp)).2.2.2.1
      rw [splitWs_word_head hune hu (' ' :: insertP (renderRest rest))
        (Or.inr ⟨_, rfl⟩)]
      rw [show (' ' :: insertP (renderRest rest) : List Char)
          = [] ++ ' ' :: insertP (renderRest rest) from rfl, splitWs_append_ws,
        splitWs_nil, List.nil_append, ih']
    · have hins : insertP (renderUnits (u :: rest))
          = u ++ insertP (renderRest rest) := by
        rw [renderUnits, insertP_append,
          insertP_nonpunct (fun c hc => (hword.2.2.2.2 c hc).2)]
      have hspace' : insertP (renderRest rest) = [] ∨
          ∃ t', insertP (renderRest rest) = ' ' :: t' := by
        rcases hspace with rfl | h
        · exact Or.inl rfl
        · exact Or.inr h
      rw [hins, splitWs_word_head hword.2.2.2.1
        (fun c hc => (hword.2.2.2.2 c hc).1) _ hspace']
      rw [ih']

theorem rmSp_joinSpRest (us : List (List Char))
    (hgood : ∀ u ∈ us, GoodUnit u) :
    rmSp (joinSpRest us) = renderRest us := by
  induction us with
  | nil => rfl
  | cons u rest ih =>
    have ih' := ih (fun v hv => hgood v (by simp [hv]))
    rcases hgood u (by simp) with hp | hword
    · have hpchar : ∀ p, u = [p] → isPunctChar p = true := by
        rintro p hep
        rcases hp with h | h <;> rw [hep] at h <;>
          simp_all [isPunctChar]
      rcases hp with rfl | rfl
      all_goals
        rw [joinSpRest, renderRest]
        rw [rmSp, rmSpGo, if_pos (by decide), List.singleton_append, rmSpGo,
          if_neg (by decide), if_pos (by decide)]
        rw [show rmSpGo [] (joinSpRest rest) = rmSp (joinSpRest rest) from rfl, ih']
        simp
    · have hne : ¬(u = ['.'] ∨ u = ['!']) := by
        rintro (rfl | rfl)
        · exact absurd (hword.2.2.2.2 '.' (by simp)).2 (by decide)
        · exact absurd (hword.2.2.2.2 '!' (by simp)).2 (by decide)
      obtain ⟨c0, u', rfl⟩ : ∃ c0 u', u = c0 :: u' := by
        match u, hword.2.2.2.1 with
        | c0 :: u', _ => exact ⟨c0, u', rfl⟩
      have hc0 := hword.2.2.2.2 c0 (by simp)
      rw [joinSpRest, renderRest, if_neg hne]
      rw [rmSp, rmSpGo, if_pos (by decide), List.cons_append, rmSpGo,
        if_neg (by simp [hc0.1]), if_neg (by simp [hc0.2])]
      rw [show rmSpGo [] (u' ++ joinSpRest rest) = rmSp (u' ++ joinSpRest rest) from rfl]
      rw [rmSp_append_nonws u' (joinSpRest rest)
        (fun c hc => (hword.2.2.2.2 c (by simp [hc])).1), ih']
      rfl

theorem rmSp_joinSp (us : List (List Char))
    (hgood : ∀ u ∈ us, GoodUnit u) :
    rmSp (joinSp us) = renderUnits us := by
  match us with
  | [] => rfl
  | u :: rest =>
    rw [joinSp, renderUnits]
    rw [rmSp_append_nonws u (joinSpRest rest)
      (fun c hc => (goodUnit_facts (hgood u (by simp))).2.2.2.2 c hc)]
    rw [rmSp_joinSpRest rest (fun v hv => hgood v (by simp [hv]))]

end LLMSim

/-- C3 counterexample: the claim includes the comma in its punctuation set,
but `","` is not in the vocabulary, so `tokenize` maps it to `<UNK>` and the
round trip does not reproduce the input `"I ,"` (not even after discarding
every whitespace character, so no whitespace normalization can repair it). -/
theorem C3_counterexample_comma :
    Part000.detokenize (Part000.tokenize (("I ,").toList)) = ("I <UNK>").toList ∧
    (Part000.detokenize (Part000.tokenize (("I ,").toList))).filter
        (fun c => !LLMSim.isWsChar c)
      ≠ (("I ,").toList).filter (fun c => !LLMSim.isWsChar c) := by
  decide

/-- C3 (amended): for any sequence of units that are either in-vocabulary
punctuation (`.` or `!` — the comma is not in the vocabulary) or
in-vocabulary words kept by `detokenize`, the round trip
`detokenize (tokenize s)` reproduces the canonically-spaced rendering of the
units exactly; any other whitespace layout of the same units normalizes to
that rendering. -/
theorem C3_round_trip_amended (us : List (List Char))
    (hgood : ∀ u ∈ us, Part000.GoodUnit u) :
    Part000.detokenize (Part000.tokenize (Part000.renderUnits us))
      = Part000.renderUnits us := by
  have htok : Part000.tokenize (Part000.renderUnits us)
      = Part000.startTok :: us.map Part000.lookupWord := by
    unfold Part000.tokenize
    rw [LLMSim.splitWs_insertP_renderUnits us hgood]
  rw [htok]
  unfold Part000.detokenize
  have hmap : ∀ u ∈ us, Part000.tokText (Part000.lookupWord u) = u := by
    intro u hu
    have hv : u ∈ Part000.VOCABULARY := (Part000.goodUnit_facts (hgood u hu)).1
    obtain ⟨i, h1, h2⟩ := LLMSim.findIdxA_getD hv []
    unfold Part000.lookupWord Part000.findTok Part000.tokText
    rw [h1]
    exact h2
  have hmaps : (us.map Part000.lookupWord).map Part000.tokText = us := by
    rw [List.map_map]
    have : us.map (Part000.tokText ∘ Part000.lookupWord) = us.map id :=
      List.map_congr_left (fun u hu => hmap u hu)
    rw [this, List.map_id]
  rw [List.map_cons, hmaps]
  have hstart : Part000.tokText Part000.startTok = ("<START>").toList := by decide
  rw [hstart]
  have hkeep : ∀ u ∈ us,
      (!(u == ("<START>").toList) && !(u == ("<PAD>").toList)) = true := by
    intro u hu
    have hf := Part000.goodUnit_facts (hgood u hu)
    have e1 : (u == ("<START>").toList) = false := beq_eq_false_iff_ne.mpr hf.2.1
    have e2 : (u == ("<PAD>").toList) = false := beq_eq_false_iff_ne.mpr hf.2.2.1
    rw [e1, e2]
    rfl
  rw [List.filter_cons_of_neg (by decide)]
  rw [List.filter_eq_self.mpr hkeep]
  exact LLMSim.rmSp_joinSp us hgood

/-- Witness for C3 at the unit list rendering to `"I like cats."`. -/
theorem C3_witness :
    (∀ u ∈ [("I").toList, ("like").toList, ("cats").toList, ['.']],
      Part000.GoodUnit u) ∧
    Part000.detokenize (Part000.tokenize (("I like cats.").toList))
      = ("I like cats.").toList := by
  refine ⟨by decide, ?_⟩
  have h := C3_round_trip_amended
    [("I").toList, ("like").toList, ("cats").toList, ['.']] (by decide)
  rw [show Part000.renderUnits [("I").toList, ("like").toList, ("cats").toList, ['.']]
      = ("I like cats.").toList from by decide] at h
  exact h

/-- C7: `tokenize` never fails — for every input string it returns a token
sequence that begins with the start token, its shape is the start token
followed by one token per word of the punctuation-separated whitespace split,
and every word not matching the vocabulary case-sensitively is mapped to the
unknown token (id 3) rather than producing an error. -/
theorem C7_tokenize_total_start_unknown (s : List Char) :
    (Part000.tokenize s).head? = some Part000.startTok ∧
    Part000.tokenize s
      = Part000.startTok ::
        (LLMSim.splitWs (LLMSim.insertP s)).map Part000.lookupWord ∧
    Part000.startTok = 1 ∧ Part000.unkTok = 3 ∧
    ∀ w : List Char, w ∉ Part000.VOCABULARY → Part000.lookupWord w = Part000.unkTok := by
  refine ⟨rfl, rfl, by decide, by decide, ?_⟩
  intro w hw
  unfold Part000.lookupWord Part000.findTok
  rw [LLMSim.findIdxA_eq_none hw]
  rfl

/-- Witness for C7: at the concrete input `"I love cats"`, whose word
`"love"` is out of vocabulary. -/
theorem C7_witness :
    (Part000.tokenize (("I love cats").toList)).head? = some Part000.startTok ∧
    (("love").toList ∉ Part000.VOCABULARY) ∧
    Part000.lookupWord (("love").toList) = Part000.unkTok := by
  refine ⟨(C7_tokenize_total_start_unknown (("I love cats").toList)).1, by decide, ?_⟩
  exact (C7_tokenize_total_start_unknown (("I love cats").toList)).2.2.2.2
    (("love").toList) (by decide)

namespace Part001

open LLMSim

/-- `src/unnamed/part_001` `generateRandomMatrix(rows, cols, seed)`:
`x = Math.sin(seed*1000 + i*100 + j) * 10000`,
`val = parseFloat((x - Math.floor(x)).toFixed(2))`, entry `val * 2 - 1`. -/
def generateRandomMatrix (m : JsMath) (rows cols : Nat) (seed : ℚ) : Matrix :=
  (List.range rows).map fun (i : Nat) =>
    (List.range cols).map fun (j : Nat) =>
      let x := m.sin (seed * 1000 + (i : ℚ) * 100 + (j : ℚ)) * 10000
      let val := round2 (x - (⌊x⌋ : ℚ))
      val * 2 - 1

/-- `part_001` `getEmbeddings`:
`tokenIds.map(id => embeddingMatrix[id] || zeroRow)` — an out-of-range id
reads `undefined` and the `||` silently substitutes
`new Array(embeddingMatrix[0].length).fill(0)`. -/
def getEmbeddings (tokenIds : List ℤ) (embeddingMatrix : Matrix) : Matrix :=
  tokenIds.map fun tid =>
    if 0 ≤ tid ∧ tid < (embeddingMatrix.length : ℤ) then
      embeddingMatrix.getD tid.toNat []
    else List.replicate (embeddingMatrix.headD []).length 0

/-- `part_001` `dotProduct`: `a.reduce((sum, val, i) => sum + val * b[i], 0)`.
When `b` is shorter than `a` the JS read `b[i]` is `undefined`, making the
result `NaN` — modelled as `none`. -/
def dotProduct (a b : List ℚ) : Option ℚ :=
  if a.length ≤ b.length then some (List.zipWith (· * ·) a b).sum else none

/-- The entry computation of `part_001` `matMul` (after its dimension guard):
entry `(i,j)` is `parseFloat((sum_k a[i][k]*b[k][j]).toFixed(2))`. -/
def matMulBody (a b : Matrix) : Matrix :=
  (List.range a.length).map fun i =>
    (List.range (b.headD []).length).map fun j =>
      round2 ((List.range (a.headD []).length).map fun k =>
        ((a.getD i []).getD k 0) * ((b.getD k []).getD j 0)).sum

/-- `part_001` `matMul`: throws `"Matrix dimension mismatch"` when
`colsA !== rowsB`.  Reading `a[0].length` / `b[0].length` of an empty matrix
throws a `TypeError` in JS before the guard runs, modelled as a distinct
error value. -/
def matMul (a b : Matrix) : Except String Matrix :=
  if a = [] ∨ b = [] then .error "TypeError"
  else if (a.headD []).length ≠ b.length then .error "Matrix dimension mismatch"
  else .ok (matMulBody a b)

/-- `part_001` `softmax` (no temperature): subtract the row maximum, apply
`exp`, normalize, and round each output to 4 decimal places
(`parseFloat((v / sum).toFixed(4))`). -/
def softmax (m : JsMath) (logits : List ℚ) : List ℚ :=
  let mx := maxList logits
  let exps := logits.map fun v => m.exp (v - mx)
  exps.map fun v => round4 (v / exps.sum)

/-- Collect a row of JS numbers: `some` of the list when no entry is `NaN`. -/
def allSome : List (Option ℚ) → Option (List ℚ)
  | [] => some []
  | x :: xs => x.bind fun v => (allSome xs).map fun vs => v :: vs

/-- `softmax` on a row that may contain `NaN`: one `NaN` makes
`Math.max(...logits)` and hence every output `NaN`. -/
def softmaxN (m : JsMath) (l : List (Option ℚ)) : List (Option ℚ) :=
  match allSome l with
  | some l' => (softmax m l').map some
  | none => l.map fun _ => none

/-- `NaN`-propagating multiplication. -/
def omul (a b : Option ℚ) : Option ℚ := a.bind fun x => b.map fun y => x * y

/-- `NaN`-propagating addition. -/
def oadd (a b : Option ℚ) : Option ℚ := a.bind fun x => b.map fun y => x + y

/-- The record returned by `computeAttention`. -/
structure AttentionHead where
  Q : Matrix
  K : Matrix
  V : Matrix
  scores : List (List (Option ℚ))
  weights : List (List (Option ℚ))
  weightedSum : List (List (Option ℚ))
deriving DecidableEq

/-- One score row of `computeAttention`: for `j ≤ i` the rounded scaled dot
product `parseFloat((dot(Q[i],K[j])/Math.sqrt(d_k)).toFixed(2))`, for `j > i`
the causal-mask sentinel `-1e9`. -/
def scoreRow (m : JsMath) (Q K : Matrix) (dk : Nat) (i : Nat) :
    List (Option ℚ) :=
  (List.range K.length).map fun j =>
    if j ≤ i then
      (dotProduct (Q.getD i []) (K.getD j [])).map
        fun dp => round2 (dp / m.sqrt (dk : ℚ))
    else some (-1000000000)

/-- The body of `computeAttention` on already-computed `Q`, `K`, `V`:
scores, row-wise softmax weights, and the weighted sum of the value rows
(each output entry rounded to 2 decimals). -/
def attnBody (m : JsMath) (Q K V : Matrix) : AttentionHead :=
  let dk := (Q.headD []).length
  let scores := (List.range Q.length).map fun i => scoreRow m Q K dk i
  let weights := scores.map fun row => softmaxN m row
  let weightedSum := weights.map fun wrow =>
    (List.range (V.headD []).length).map fun k =>
      (((List.range wrow.length).map fun j =>
        omul (wrow.getD j none) (some ((V.getD j []).getD k 0))).foldl
          oadd (some 0)).map round2
  ⟨Q, K, V, scores, weights, weightedSum⟩

/-- `part_001` `computeAttention`: `Q = matMul(input, W_Q)` etc. (each can
throw the dimension-mismatch error), then causal masked scores, row-wise
softmax and the weighted value sum. -/
def computeAttention (m : JsMath) (input W_Q W_K W_V : Matrix) :
    Except String AttentionHead := do
  let Q ← matMul input W_Q
  let K ← matMul input W_K
  let V ← matMul input W_V
  pure (attnBody m Q K V)

/-- The unmasked score entry `(i, j)`, used to state score bounds. -/
def plainScore (m : JsMath) (Q K : Matrix) (dk : Nat) (i j : Nat) : ℚ :=
  round2 ((List.zipWith (· * ·) (Q.getD i []) (K.getD j [])).sum / m.sqrt (dk : ℚ))

/-- A score row with no `NaN` entries, as plain rationals. -/
def plainScoreRow (m : JsMath) (Q K : Matrix) (dk : Nat) (i : Nat) : List ℚ :=
  (List.range K.length).map fun j =>
    if j ≤ i then plainScore m Q K dk i j else -1000000000

end Part001

namespace LLMSim

theorem getD_map_lt {α β : Type} (f : α → β) (l : List α) (j : Nat)
    (hj : j < l.length) (d : α) (d' : β) :
    (l.map f).getD j d' = f (l.getD j d) := by
  induction l generalizing j with
  | nil => cases hj
  | cons x xs ih =>
    cases j with
    | zero => rfl
    | succ j' => exact ih j' (by simpa using hj)

theorem getD_mem' {α : Type} (l : List α) (j : Nat) (hj : j < l.length) (d : α) :
    l.getD j d ∈ l := by
  induction l generalizing j with
  | nil => cases hj
  | cons x xs ih =>
    cases j with
    | zero => exact List.mem_cons_self x xs
    | succ j' => exact List.mem_cons.mpr (Or.inr (ih j' (by simpa using hj)))

theorem getD_range (n j : Nat) (hj : j < n) (d : Nat) :
    (List.range n).getD j d = j := by
  rw [List.getD_eq_getElem (List.range n) d (by simpa using hj)]
  simp

theorem sum_map_div (l : List ℚ) (S : ℚ) :
    (l.map fun v => v / S).sum = l.sum / S := by
  induction l with
  | nil => simp
  | cons x xs ih => simp [ih, add_div]

theorem sum_map_round4_err (l : List ℚ) :
    |(l.map round4).sum - l.sum| ≤ (l.length : ℚ) * (1/20000) := by
  induction l with
  | nil => simp
  | cons x xs ih =>
    have hx : |round4 x - x| ≤ 1/20000 := by
      have := abs_roundTo_sub_le 4 x
      norm_num [round4] at this ⊢
      exact this
    calc |((x :: xs).map round4).sum - (x :: xs).sum|
        = |(round4 x - x) + ((xs.map round4).sum - xs.sum)| := by
          simp only [List.map_cons, List.sum_cons]
          ring_nf
      _ ≤ |round4 x - x| + |(xs.map round4).sum - xs.sum| := abs_add _ _
      _ ≤ 1/20000 + (xs.length : ℚ) * (1/20000) := add_le_add hx ih
      _ = ((x :: xs).length : ℚ) * (1/20000) := by
          simp only [List.length_cons]
          push_cast
          ring

theorem grid_headD_length {a : Matrix} {mm nn : Nat} (h : IsGrid a mm nn)
    (hm : 0 < mm) : (a.headD []).length = nn := by
  match a, h with
  | [], ⟨hlen, _⟩ => simp at hlen; omega
  | r :: rs, ⟨_, hrow⟩ => exact hrow r (by simp)

end LLMSim

namespace Part001

open LLMSim

theorem allSome_map_some (l : List ℚ) : allSome (l.map some) = some l := by
  induction l with
  | nil => rfl
  | cons x xs ih => simp [allSome, ih]

theorem softmaxN_map_some (m : JsMath) (l : List ℚ) :
    softmaxN m (l.map some) = (softmax m l).map some := by
  unfold softmaxN
  rw [allSome_map_some]

theorem softmax_length (m : JsMath) (l : List ℚ) :
    (softmax m l).length = l.length := by
  simp [softmax]

theorem softmax_exps_sum_ge_one (m : JsMath) (hnn : ∀ x, 0 ≤ m.exp x)
    (h0 : m.exp 0 = 1) (l : List ℚ) (hne : l ≠ []) :
    1 ≤ (l.map fun v => m.exp (v - maxList l)).sum := by
  have hmem : m.exp (maxList l - maxList l) ∈ l.map fun v => m.exp (v - maxList l) :=
    List.mem_map_of_mem _ (maxList_mem hne)
  rw [sub_self, h0] at hmem
  exact List.single_le_sum
    (fun x hx => by
      obtain ⟨v, -, rfl⟩ := List.mem_map.mp hx
      exact hnn _) 1 hmem

theorem softmax_sum_close (m : JsMath) (hnn : ∀ x, 0 ≤ m.exp x)
    (h0 : m.exp 0 = 1) (l : List ℚ) (hne : l ≠ []) :
    |(softmax m l).sum - 1| ≤ (l.length : ℚ) * (1/20000) := by
  unfold softmax
  set exps := l.map fun v => m.exp (v - maxList l) with hexps
  have hS1 : 1 ≤ exps.sum := softmax_exps_sum_ge_one m hnn h0 l hne
  have hS0 : exps.sum ≠ 0 := by linarith
  have hmm : (exps.map fun v => round4 (v / exps.sum))
      = (exps.map fun v => v / exps.sum).map round4 := by
    conv_rhs => rw [List.map_map]
    rfl
  rw [hmm]
  have herr := sum_map_round4_err (exps.map fun v => v / exps.sum)
  rw [sum_map_div exps exps.sum, div_self hS0] at herr
  have hlen : ((exps.map fun v => v / exps.sum).length : ℚ) = (l.length : ℚ) := by
    simp [hexps]
  rw [hlen] at herr
  exact herr

theorem softmax_masked (m : JsMath) (huf : ∀ x ≤ (-745 : ℚ), m.exp x = 0)
    (l : List ℚ) (j : Nat) (hj : j < l.length)
    (hmask : l.getD j 0 - maxList l ≤ -745) :
    (softmax m l).getD j 0 = 0 := by
  unfold softmax
  have h1 : ((l.map fun v => m.exp (v - maxList l)).map
      fun v => round4 (v / (l.map fun v => m.exp (v - maxList l)).sum)).getD j 0
      = round4 ((l.map fun v => m.exp (v - maxList l)).getD j 0
          / (l.map fun v => m.exp (v - maxList l)).sum) := by
    exact getD_map_lt _ _ j (by simpa using hj) 0 0
  rw [h1, getD_map_lt _ _ j hj 0 0, huf _ hmask, zero_div, round4, roundTo_zero]

theorem matMulBody_length (a b : Matrix) : (matMulBody a b).length = a.length := by
  simp [matMulBody]

theorem matMulBody_row_length (a b : Matrix) :
    ∀ row ∈ matMulBody a b, row.length = (b.headD []).length := by
  intro row hrow
  simp only [matMulBody, List.mem_map] at hrow
  obtain ⟨i, -, rfl⟩ := hrow
  simp

theorem matMul_ok {a b : Matrix} (ha : a ≠ []) (hb : b ≠ [])
    (hdim : (a.headD []).length = b.length) :
    matMul a b = .ok (matMulBody a b) := by
  unfold matMul
  rw [if_neg (by simp [ha, hb]), if_neg (not_ne_iff.mpr hdim)]

theorem matMulBody_grid {a b : Matrix} {n d e : Nat} (ha : IsGrid a n d)
    (hb : IsGrid b d e) (hd : 0 < d) : IsGrid (matMulBody a b) n e := by
  refine ⟨by rw [matMulBody_length, ha.1], ?_⟩
  intro row hrow
  rw [matMulBody_row_length a b row hrow, grid_headD_length hb hd]

theorem scoreRow_eq_plain (m : JsMath) (Q K : Matrix) (dk : Nat) (i : Nat)
    (hwidth : ∀ j < K.length, (Q.getD i []).length ≤ (K.getD j []).length) :
    scoreRow m Q K dk i = (plainScoreRow m Q K dk i).map some := by
  unfold scoreRow plainScoreRow
  rw [List.map_map]
  apply List.map_congr_left
  intro j hj
  simp only [Function.comp]
  by_cases hji : j ≤ i
  · rw [if_pos hji, if_pos hji]
    unfold dotProduct
    rw [if_pos (hwidth j (List.mem_range.mp hj))]
    rfl
  · rw [if_neg hji, if_neg hji]

end Part001

namespace LLMSim

/-- All entries of a matrix lie in the closed interval `[lo, hi]`. -/
def EntriesIn (a : Matrix) (lo hi : ℚ) : Prop :=
  ∀ row ∈ a, ∀ x ∈ row, lo ≤ x ∧ x ≤ hi

theorem generateMatrix_entry_range (m : JsMath)
    (hsin : ∀ x, |m.sin x| ≤ 1) (rows cols : Nat) (seed : ℚ) :
    EntriesIn (Part000.generateMatrix m rows cols seed) (-1) 1 := by
  intro row hrow x hx
  simp only [Part000.generateMatrix, List.mem_map] at hrow
  obtain ⟨i, -, rfl⟩ := hrow
  simp only [List.mem_map] at hx
  obtain ⟨j, -, rfl⟩ := hx
  have h := hsin ((i : ℚ) * 10 + (j : ℚ) * 20 + seed)
  rw [abs_le] at h
  constructor <;> nlinarith [h.1, h.2]

theorem generateRandomMatrix_entry_range (m : JsMath) (rows cols : Nat) (seed : ℚ) :
    EntriesIn (Part001.generateRandomMatrix m rows cols seed) (-1) 1 := by
  intro row hrow x hx
  simp only [Part001.generateRandomMatrix, List.mem_map] at hrow
  obtain ⟨i, -, rfl⟩ := hrow
  simp only [List.mem_map] at hx
  obtain ⟨j, -, rfl⟩ := hx
  set y := m.sin (seed * 1000 + (i : ℚ) * 100 + (j : ℚ)) * 10000 with hy
  have hfrac0 : (0:ℚ) ≤ y - (⌊y⌋ : ℚ) := by
    have := Int.floor_le y
    linarith
  have hfrac1 : y - (⌊y⌋ : ℚ) < 1 := by
    have := Int.lt_floor_add_one y
    linarith
  have h100 : (0:ℤ) ≤ round ((y - (⌊y⌋ : ℚ)) * 10 ^ 2) := by
    rw [round_eq]
    exact Int.le_floor.mpr (by push_cast; nlinarith)
  have h100' : round ((y - (⌊y⌋ : ℚ)) * 10 ^ 2) ≤ 100 := by
    rw [round_eq]
    have hlt : (y - (⌊y⌋ : ℚ)) * 10 ^ 2 + 1 / 2 < ((101 : ℤ) : ℚ) := by
      push_cast; nlinarith
    exact Int.lt_add_one_iff.mp (Int.floor_lt.mpr hlt)
  have hval0 : (0:ℚ) ≤ round2 (y - (⌊y⌋ : ℚ)) := by
    unfold round2 roundTo
    have : (0:ℚ) ≤ ((round ((y - (⌊y⌋ : ℚ)) * 10 ^ 2) : ℤ) : ℚ) :=
      Int.cast_nonneg.mpr h100
    positivity
  have hval1 : round2 (y - (⌊y⌋ : ℚ)) ≤ 1 := by
    unfold round2 roundTo
    rw [div_le_one (by positivity)]
    calc ((round ((y - (⌊y⌋ : ℚ)) * 10 ^ 2) : ℤ) : ℚ) ≤ ((100 : ℤ) : ℚ) := by
          exact_mod_cast h100'
      _ = 10 ^ 2 := by norm_num
  constructor <;> simp only [hy] at hval0 hval1 <;> linarith

end LLMSim

/-- C2: the weight generators are pure functions of `(rows, cols, seed)` (two
calls with identical arguments return element-wise identical matrices — shown
for both `generateMatrix` and `generateRandomMatrix`, e.g. at `(4,4,seed=1)`),
and, whenever `Math.sin` satisfies `|sin x| ≤ 1`, every generated entry lies
in `[-1, 1]`. -/
theorem C2_weight_generator_deterministic_and_ranged (m : LLMSim.JsMath)
    (hsin : ∀ x, |m.sin x| ≤ 1) (rows cols : Nat) (seed : ℚ) :
    Part000.generateMatrix m rows cols seed = Part000.generateMatrix m rows cols seed ∧
    Part001.generateRandomMatrix m rows cols seed = Part001.generateRandomMatrix m rows cols seed ∧
    LLMSim.EntriesIn (Part000.generateMatrix m rows cols seed) (-1) 1 ∧
    LLMSim.EntriesIn (Part001.generateRandomMatrix m rows cols seed) (-1) 1 :=
  ⟨rfl, rfl, LLMSim.generateMatrix_entry_range m hsin rows cols seed,
    LLMSim.generateRandomMatrix_entry_range m rows cols seed⟩

/-- Witness for C2 at `(rows, cols, seed) = (4, 4, 1)` with a concrete `sin`. -/
theorem C2_witness :
    (∀ x : ℚ, |(fun (_ : ℚ) => (0:ℚ)) x| ≤ 1) ∧
    LLMSim.EntriesIn
      (Part000.generateMatrix ⟨fun _ => 0, fun _ => 0, fun _ => 0⟩ 4 4 1) (-1) 1 := by
  refine ⟨fun x => by norm_num, ?_⟩
  exact (C2_weight_generator_deterministic_and_ranged
    ⟨fun _ => 0, fun _ => 0, fun _ => 0⟩ (fun x => by norm_num) 4 4 1).2.2.1

/-- A concrete instantiation of `JsMath` that agrees with IEEE-double
`Math.exp` at every argument the concrete attention computations below
evaluate it at: `exp 0 = 1` and `exp x = 0` for `x ≤ -745` (double
underflow), and `Math.sqrt 1 = 1`. -/
def mWitness : LLMSim.JsMath :=
  ⟨fun _ => 0, fun x => if x ≤ -745 then 0 else 1, fun _ => 1⟩


instance (a : LLMSim.Matrix) (m n : Nat) : Decidable (LLMSim.IsGrid a m n) := by
  unfold LLMSim.IsGrid
  infer_instance

theorem mWitness_exp_nonneg : ∀ x, 0 ≤ mWitness.exp x := by
  intro x
  show (0:ℚ) ≤ if x ≤ -745 then 0 else 1
  split <;> norm_num

theorem mWitness_exp_zero : mWitness.exp 0 = 1 := by
  show (if (0:ℚ) ≤ -745 then (0:ℚ) else 1) = 1
  norm_num

theorem mWitness_exp_underflow : ∀ x ≤ (-745 : ℚ), mWitness.exp x = 0 := by
  intro x hx
  show (if x ≤ -745 then (0:ℚ) else 1) = 0
  rw [if_pos hx]

theorem ones_matMulBody :
    Part001.matMulBody [[1], [1], [1]] [[1]] = [[1], [1], [1]] := by
  norm_num [Part001.matMulBody, List.range_succ, LLMSim.round2, LLMSim.roundTo,
    round_eq]

theorem ones_attention_ok :
    Part001.computeAttention mWitness [[1], [1], [1]] [[1]] [[1]] [[1]]
      = .ok (Part001.attnBody mWitness [[1], [1], [1]] [[1], [1], [1]] [[1], [1], [1]]) := by
  have h1 : Part001.matMul [[1], [1], [1]] [[1]] = .ok [[1], [1], [1]] := by
    rw [Part001.matMul_ok (by simp) (by simp) (by simp), ones_matMulBody]
  unfold Part001.computeAttention
  rw [h1]
  rfl

theorem ones_scoreRow2 :
    Part001.scoreRow mWitness [[1], [1], [1]] [[1], [1], [1]] 1 2
      = [some 1, some 1, some 1] := by
  norm_num [Part001.scoreRow, Part001.dotProduct, List.range_succ, mWitness,
    LLMSim.round2, LLMSim.roundTo, round_eq]

theorem ones_softmax :
    Part001.softmax mWitness [1, 1, 1] = [3333/10000, 3333/10000, 3333/10000] := by
  have hmx : LLMSim.maxList [1, 1, 1] = (1:ℚ) := by
    simp [LLMSim.maxList]
  unfold Part001.softmax
  rw [hmx]
  norm_num [mWitness_exp_zero, LLMSim.round4, LLMSim.roundTo, round_eq]

theorem ones_weights_row2 :
    (Part001.attnBody mWitness [[1], [1], [1]] [[1], [1], [1]] [[1], [1], [1]]).weights.getD 2 []
      = [some (3333/10000), some (3333/10000), some (3333/10000)] := by
  show ((((List.range 3).map fun i =>
      Part001.scoreRow mWitness [[1], [1], [1]] [[1], [1], [1]]
        ((([[1], [1], [1]] : LLMSim.Matrix).headD []).length) i).map
          fun row => Part001.softmaxN mWitness row)).getD 2 [] = _
  rw [show (([[1], [1], [1]] : LLMSim.Matrix).headD []).length = 1 from rfl]
  rw [show List.range 3 = [0, 1, 2] from rfl]
  simp only [List.map_cons, List.map_nil]
  rw [show ([Part001.softmaxN mWitness
        (Part001.scoreRow mWitness [[1], [1], [1]] [[1], [1], [1]] 1 0),
      Part001.softmaxN mWitness
        (Part001.scoreRow mWitness [[1], [1], [1]] [[1], [1], [1]] 1 1),
      Part001.softmaxN mWitness
        (Part001.scoreRow mWitness [[1], [1], [1]] [[1], [1], [1]] 1 2)].getD 2 [])
    = Part001.softmaxN mWitness
        (Part001.scoreRow mWitness [[1], [1], [1]] [[1], [1], [1]] 1 2) from rfl]
  rw [ones_scoreRow2]
  rw [show ([some 1, some 1, some 1] : List (Option ℚ)) = ([1, 1, 1] : List ℚ).map some
    from rfl]
  rw [Part001.softmaxN_map_some, ones_softmax]
  rfl

/-- C1 counterexample: `computeAttention` rounds every attention weight to 4
decimal places, so with three identical context rows (all scores equal) row 2
of the weight matrix is `[0.3333, 0.3333, 0.3333]`, summing to `0.9999` —
off from 1 by `10⁻⁴`, outside the claimed `±10⁻⁶` tolerance.  (`mWitness`
agrees with IEEE-double `Math.exp`/`Math.sqrt` at every evaluated point.) -/
theorem C1_counterexample_row_sum :
    (Part001.computeAttention mWitness [[1], [1], [1]] [[1]] [[1]] [[1]]).toOption.map
        (fun A => ((A.weights.getD 2 []).map fun o => o.getD 0).sum)
      = some (9999/10000) ∧
    ¬(|(9999 : ℚ)/10000 - 1| ≤ 1/1000000) := by
  constructor
  · rw [ones_attention_ok]
    show some ((((Part001.attnBody mWitness [[1], [1], [1]] [[1], [1], [1]]
        [[1], [1], [1]]).weights.getD 2 []).map fun o => o.getD 0).sum)
      = some (9999/10000)
    rw [ones_weights_row2]
    norm_num
  · have h : |(9999 : ℚ)/10000 - 1| = 1/10000 := by
      rw [show (9999 : ℚ)/10000 - 1 = -(1/10000) by norm_num, abs_neg,
        abs_of_pos (by norm_num : (0:ℚ) < 1/10000)]
    rw [h]
    norm_num

/-- C1 (amended): for shape-consistent inputs (`X` of size `n×d`, square
`d×d` weight matrices, `n, d ≥ 1`), with `exp` nonnegative, `exp 0 = 1` and
`exp` underflowing to 0 below `-745` (as IEEE-double `Math.exp` does), and
the leading unmasked score of each row at least `-10⁹ + 745` (true for every
realistic input), `computeAttention` succeeds and every row `i` of its
weight matrix consists of plain (non-`NaN`) rationals that sum to 1 within
`n · 5·10⁻⁵` — the 4-decimal rounding of each weight makes the claimed
`±10⁻⁶` unachievable — while every masked entry `j > i` is exactly 0. -/
theorem C1_attention_rows_amended (m : LLMSim.JsMath) (input Wq Wk Wv : LLMSim.Matrix)
    (n d : Nat) (hn : 0 < n) (hd : 0 < d)
    (hX : LLMSim.IsGrid input n d) (hWq : LLMSim.IsGrid Wq d d)
    (hWk : LLMSim.IsGrid Wk d d) (hWv : LLMSim.IsGrid Wv d d)
    (hnn : ∀ x, 0 ≤ m.exp x) (h0 : m.exp 0 = 1)
    (huf : ∀ x ≤ (-745 : ℚ), m.exp x = 0)
    (hS : ∀ i < n, -999999255 ≤ Part001.plainScore m
      (Part001.matMulBody input Wq) (Part001.matMulBody input Wk) d i 0) :
    ∃ A, Part001.computeAttention m input Wq Wk Wv = .ok A ∧
      A.weights.length = n ∧
      ∀ i < n, ∃ w : List ℚ,
        A.weights.getD i [] = w.map some ∧ w.length = n ∧
        |w.sum - 1| ≤ (n : ℚ) * (1/20000) ∧
        ∀ j, i < j → j < n → w.getD j 0 = 0 := by
  have hXne : input ≠ [] := by
    intro h
    have hlen := hX.1
    rw [h] at hlen
    simp at hlen
    omega
  have hWqne : Wq ≠ [] := by
    intro h
    have hlen := hWq.1
    rw [h] at hlen
    simp at hlen
    omega
  have hWkne : Wk ≠ [] := by
    intro h
    have hlen := hWk.1
    rw [h] at hlen
    simp at hlen
    omega
  have hWvne : Wv ≠ [] := by
    intro h
    have hlen := hWv.1
    rw [h] at hlen
    simp at hlen
    omega
  have hXw : (input.headD []).length = d := LLMSim.grid_headD_length hX hn
  have hQok : Part001.matMul input Wq = .ok (Part001.matMulBody input Wq) :=
    Part001.matMul_ok hXne hWqne (by rw [hXw, hWq.1])
  have hKok : Part001.matMul input Wk = .ok (Part001.matMulBody input Wk) :=
    Part001.matMul_ok hXne hWkne (by rw [hXw, hWk.1])
  have hVok : Part001.matMul input Wv = .ok (Part001.matMulBody input Wv) :=
    Part001.matMul_ok hXne hWvne (by rw [hXw, hWv.1])
  set Qm := Part001.matMulBody input Wq with hQm
  set Km := Part001.matMulBody input Wk with hKm
  set Vm := Part001.matMulBody input Wv with hVm
  have hQg : LLMSim.IsGrid Qm n d := Part001.matMulBody_grid hX hWq hd
  have hKg : LLMSim.IsGrid Km n d := Part001.matMulBody_grid hX hWk hd
  have hrun : Part001.computeAttention m input Wq Wk Wv
      = .ok (Part001.attnBody m Qm Km Vm) := by
    unfold Part001.computeAttention
    rw [hQok, hKok, hVok]
    rfl
  refine ⟨Part001.attnBody m Qm Km Vm, hrun, ?_, ?_⟩
  · show ((((List.range Qm.length).map fun i =>
      Part001.scoreRow m Qm Km ((Qm.headD []).length) i).map
        fun row => Part001.softmaxN m row)).length = n
    simp [hQg.1]
  · intro i hi
    have hdk : (Qm.headD []).length = d := LLMSim.grid_headD_length hQg hn
    have hwA : (Part001.attnBody m Qm Km Vm).weights
        = (List.range n).map fun i =>
            Part001.softmaxN m (Part001.scoreRow m Qm Km d i) := by
      show ((List.range Qm.length).map fun i =>
          Part001.scoreRow m Qm Km ((Qm.headD []).length) i).map
            (fun row => Part001.softmaxN m row)
        = (List.range n).map fun i =>
            Part001.softmaxN m (Part001.scoreRow m Qm Km d i)
      rw [List.map_map, hQg.1, hdk]
      rfl
    have hrow : (Part001.attnBody m Qm Km Vm).weights.getD i []
        = Part001.softmaxN m (Part001.scoreRow m Qm Km d i) := by
      rw [hwA, LLMSim.getD_map_lt _ (List.range n) i (by simpa using hi) 0 [],
        LLMSim.getD_range n i hi 0]
    have hwidth : ∀ j < Km.length, (Qm.getD i []).length ≤ (Km.getD j []).length := by
      intro j hj
      have h1 : (Qm.getD i []).length = d :=
        hQg.2 _ (LLMSim.getD_mem' Qm i (by rw [hQg.1]; exact hi) [])
      have h2 : (Km.getD j []).length = d :=
        hKg.2 _ (LLMSim.getD_mem' Km j hj [])
      rw [h1, h2]
    have hplain := Part001.scoreRow_eq_plain m Qm Km d i hwidth
    set pr := Part001.plainScoreRow m Qm Km d i with hpr
    have hprlen : pr.length = n := by
      rw [hpr]
      unfold Part001.plainScoreRow
      simp [hKg.1]
    have hprne : pr ≠ [] := by
      intro h
      rw [h] at hprlen
      simp at hprlen
      omega
    refine ⟨Part001.softmax m pr, ?_, ?_, ?_, ?_⟩
    · rw [hrow, hplain, Part001.softmaxN_map_some]
    · rw [Part001.softmax_length, hprlen]
    · have hclose := Part001.softmax_sum_close m hnn h0 pr hprne
      rwa [hprlen] at hclose
    · intro j hij hjn
      apply Part001.softmax_masked m huf pr j (by rw [hprlen]; exact hjn)
      have hj0 : pr.getD j 0 = -1000000000 := by
        rw [hpr]
        unfold Part001.plainScoreRow
        rw [LLMSim.getD_map_lt _ (List.range Km.length) j
            (by rw [List.length_range, hKg.1]; exact hjn) 0 0,
          LLMSim.getD_range Km.length j (by rw [hKg.1]; exact hjn) 0,
          if_neg (by omega)]
      have h00 : pr.getD 0 0 = Part001.plainScore m Qm Km d i 0 := by
        rw [hpr]
        unfold Part001.plainScoreRow
        rw [LLMSim.getD_map_lt _ (List.range Km.length) 0
            (by rw [List.length_range, hKg.1]; omega) 0 0,
          LLMSim.getD_range Km.length 0 (by rw [hKg.1]; omega) 0,
          if_pos (by omega)]
      have hmx : Part001.plainScore m Qm Km d i 0 ≤ LLMSim.maxList pr := by
        rw [← h00]
        exact LLMSim.maxList_le_of_mem
          (LLMSim.getD_mem' pr 0 (by rw [hprlen]; omega) 0)
      have hs0 := hS i hi
      rw [hj0]
      have hge : (-999999255 : ℚ) ≤ LLMSim.maxList pr := le_trans hs0 hmx
      linarith

/-- Witness for C1 (amended) at the concrete three-row input. -/
theorem C1_witness :
    ∃ A, Part001.computeAttention mWitness [[1], [1], [1]] [[1]] [[1]] [[1]] = .ok A ∧
      A.weights.length = 3 ∧
      ∀ i < 3, ∃ w : List ℚ,
        A.weights.getD i [] = w.map some ∧ w.length = 3 ∧
        |w.sum - 1| ≤ ((3 : Nat) : ℚ) * (1/20000) ∧
        ∀ j, i < j → j < 3 → w.getD j 0 = 0 := by
  refine C1_attention_rows_amended mWitness [[1], [1], [1]] [[1]] [[1]] [[1]] 3 1
    (by norm_num) (by norm_num) (by decide) (by decide) (by decide) (by decide)
    mWitness_exp_nonneg mWitness_exp_zero mWitness_exp_underflow ?_
  intro i hi
  rw [ones_matMulBody]
  interval_cases i <;>
    norm_num [Part001.plainScore, mWitness, LLMSim.round2, LLMSim.roundTo, round_eq]

/-- C6, evaluated at the failing input: invoking `computeAttention` with
`W_Q` of width 4 and `W_K` of width 3 (so `Q` is 4 wide and `K` 3 wide) does
NOT fail with a dimension-mismatch error — only `matMul`'s inner-dimension
guard ever throws (final conjunct) — instead the mismatched `dotProduct`
reads `b[i] = undefined` and the call returns `.ok` with `NaN` (`none`)
scores, weights and outputs: silently produced values, where the spec
requires an abort. -/
theorem C6_qk_width_mismatch_returns_nan (m : LLMSim.JsMath) :
    ∃ A, Part001.computeAttention m [[1]] [[1, 1, 1, 1]] [[1, 1, 1]] [[1]] = .ok A ∧
      A.scores = [[none]] ∧ A.weights = [[none]] ∧ A.weightedSum = [[none]] ∧
      Part001.matMul [[1, 2]] [[3]] = .error "Matrix dimension mismatch" :=
  ⟨Part001.attnBody m
      (Part001.matMulBody [[1]] [[1, 1, 1, 1]])
      (Part001.matMulBody [[1]] [[1, 1, 1]])
      (Part001.matMulBody [[1]] [[1]]),
    rfl, rfl, rfl, rfl, rfl⟩

/-- C8 counterexample: an out-of-range token id (5 against a 2-row table)
does not abort the embedding lookup — `getEmbeddings` silently returns the
all-zero row, the opposite of the claimed descriptive error. -/
theorem C8_counterexample_silent_zero_row :
    Part001.getEmbeddings [(5 : ℤ)] [[1, 2], [3, 4]] = [[0, 0]] := by
  norm_num [Part001.getEmbeddings, List.replicate]

/-- C8 (amended): the embedding lookup is total and never errors: it returns
one row per id; an in-range id returns its table row, and an out-of-range id
is silently mapped to the all-zero row of the embedding width `d`
(`embeddingMatrix[id] || new Array(embeddingMatrix[0].length).fill(0)`). -/
theorem C8_embedding_fallback_amended (tokenIds : List ℤ) (M : LLMSim.Matrix)
    (n d : Nat) (hM : LLMSim.IsGrid M n d) (hn : 0 < n) :
    (Part001.getEmbeddings tokenIds M).length = tokenIds.length ∧
    (∀ row ∈ Part001.getEmbeddings tokenIds M, row.length = d) ∧
    ∀ k < tokenIds.length,
      (¬(0 ≤ tokenIds.getD k 0 ∧ tokenIds.getD k 0 < (M.length : ℤ)) →
        (Part001.getEmbeddings tokenIds M).getD k [] = List.replicate d 0) ∧
      ((0 ≤ tokenIds.getD k 0 ∧ tokenIds.getD k 0 < (M.length : ℤ)) →
        (Part001.getEmbeddings tokenIds M).getD k []
          = M.getD (tokenIds.getD k 0).toNat []) := by
  have hw : (M.headD []).length = d := LLMSim.grid_headD_length hM hn
  refine ⟨by simp [Part001.getEmbeddings], ?_, ?_⟩
  · intro row hrow
    simp only [Part001.getEmbeddings, List.mem_map] at hrow
    obtain ⟨tid, htid, rfl⟩ := hrow
    by_cases hin : 0 ≤ tid ∧ tid < (M.length : ℤ)
    · rw [if_pos hin]
      apply hM.2
      apply LLMSim.getD_mem'
      omega
    · rw [if_neg hin]
      rw [List.length_replicate, hw]
  · intro k hk
    have hget : (Part001.getEmbeddings tokenIds M).getD k []
        = if 0 ≤ tokenIds.getD k 0 ∧ tokenIds.getD k 0 < (M.length : ℤ) then
            M.getD (tokenIds.getD k 0).toNat []
          else List.replicate (M.headD []).length 0 := by
      unfold Part001.getEmbeddings
      rw [LLMSim.getD_map_lt _ tokenIds k hk 0 []]
    constructor
    · intro hout
      rw [hget, if_neg hout, hw]
    · intro hin
      rw [hget, if_pos hin]

/-- Witness for C8 (amended): id 5 against the 2×2 table `[[1,2],[3,4]]`
falls back to the zero row `[0, 0]`. -/
theorem C8_witness :
    (Part001.getEmbeddings [(5 : ℤ)] [[1, 2], [3, 4]]).length = 1 ∧
    (Part001.getEmbeddings [(5 : ℤ)] [[1, 2], [3, 4]]).getD 0 []
      = List.replicate 2 0 := by
  have h := C8_embedding_fallback_amended [(5 : ℤ)] [[1, 2], [3, 4]] 2 2
    (by constructor <;> norm_num) (by norm_num)
  refine ⟨h.1, (h.2.2 0 (by norm_num)).1 ?_⟩
  norm_num

namespace Part004

open LLMSim

/-- Insertion into a descending-sorted list: the model of
`.sort((a, b) => b.prob - a.prob)` on the probability values. -/
def insertDesc (x : ℚ) : List ℚ → List ℚ
  | [] => [x]
  | y :: ys => if y ≤ x then x :: y :: ys else y :: insertDesc x ys

/-- Sort probabilities in descending order. -/
def sortDesc (l : List ℚ) : List ℚ := l.foldr insertDesc []

/-- The walk of `part_004` `processedTokens` over the sorted probabilities:
`cumulativeProb += token.prob`, then
`isActive = (index < topK) && (cumulativeProb - token.prob < topP)`. -/
def processedAux (topK : Nat) (topP : ℚ) : Nat → ℚ → List ℚ → List (ℚ × Bool)
  | _, _, [] => []
  | idx, cum, p :: rest =>
    let cum2 := cum + p
    (p, decide (idx < topK) && decide (cum2 - p < topP)) ::
      processedAux topK topP (idx + 1) cum2 rest

/-- `part_004` `processedTokens` restricted to the probability values: sort
descending, then flag each position active per the top-k/top-p rules. -/
def processedTokens (probs : List ℚ) (topK : Nat) (topP : ℚ) : List (ℚ × Bool) :=
  processedAux topK topP 0 0 (sortDesc probs)

theorem insertDesc_length (x : ℚ) (l : List ℚ) :
    (insertDesc x l).length = l.length + 1 := by
  induction l with
  | nil => rfl
  | cons y ys ih =>
    unfold insertDesc
    by_cases h : y ≤ x
    · rw [if_pos h]
      rfl
    · rw [if_neg h]
      simp [ih]

theorem sortDesc_length (l : List ℚ) : (sortDesc l).length = l.length := by
  induction l with
  | nil => rfl
  | cons x xs ih =>
    show (insertDesc x (sortDesc xs)).length = xs.length + 1
    rw [insertDesc_length, ih]

theorem processedAux_length (topK : Nat) (topP : ℚ) :
    ∀ (l : List ℚ) (idx : Nat) (cum : ℚ),
      (processedAux topK topP idx cum l).length = l.length := by
  intro l
  induction l with
  | nil => intro idx cum; rfl
  | cons p rest ih =>
    intro idx cum
    show (processedAux topK topP (idx + 1) (cum + p) rest).length + 1 = rest.length + 1
    rw [ih]

theorem processedAux_getD (topK : Nat) (topP : ℚ) :
    ∀ (l : List ℚ) (idx : Nat) (cum : ℚ) (k : Nat), k < l.length →
      (processedAux topK topP idx cum l).getD k (0, false)
        = (l.getD k 0,
            decide (idx + k < topK) && decide (cum + (l.take k).sum < topP)) := by
  intro l
  induction l with
  | nil => intro idx cum k hk; cases hk
  | cons p rest ih =>
    intro idx cum k hk
    cases k with
    | zero =>
      show (p, decide (idx < topK) && decide (cum + p - p < topP)) = _
      rw [show cum + p - p = cum by ring]
      simp
    | succ k' =>
      show (processedAux topK topP (idx + 1) (cum + p) rest).getD k' (0, false) = _
      rw [ih (idx + 1) (cum + p) k' (by simpa using hk)]
      have h1 : idx + 1 + k' = idx + (k' + 1) := by omega
      have h2 : cum + p + (rest.take k').sum = cum + ((p :: rest).take (k' + 1)).sum := by
        rw [List.take_succ_cons, List.sum_cons]
        ring
      rw [h1, h2]
      rfl

end Part004

/-- C4: for every probability distribution, every `topK ≥ 1` and every
`topP ∈ (0, 1]`, the composed sampling filter marks the token at sorted
position `k` active exactly when `k < topK` and the cumulative probability
strictly before it is below `topP`; consequently the token at position 0 —
the most probable one — always survives (even when its own probability
exceeds `topP`, since no hypothesis excludes that). -/
theorem C4_topk_topp_filter (probs : List ℚ) (topK : Nat) (topP : ℚ)
    (hne : probs ≠ []) (hK : 1 ≤ topK) (hP0 : 0 < topP) (hP1 : topP ≤ 1)
    (hnn : ∀ p ∈ probs, 0 ≤ p) (hsum : probs.sum = 1) :
    (Part004.processedTokens probs topK topP).length = probs.length ∧
    (∀ k < probs.length,
      ((Part004.processedTokens probs topK topP).getD k (0, false)).2 = true ↔
        (k < topK ∧ ((Part004.sortDesc probs).take k).sum < topP)) ∧
    ((Part004.processedTokens probs topK topP).getD 0 (0, false)).2 = true := by
  have hlen : (Part004.sortDesc probs).length = probs.length :=
    Part004.sortDesc_length probs
  refine ⟨?_, ?_, ?_⟩
  · unfold Part004.processedTokens
    rw [Part004.processedAux_length, hlen]
  · intro k hk
    unfold Part004.processedTokens
    rw [Part004.processedAux_getD topK topP (Part004.sortDesc probs) 0 0 k
      (by rw [hlen]; exact hk)]
    simp only [Nat.zero_add, zero_add, Bool.and_eq_true, decide_eq_true_eq]
  · unfold Part004.processedTokens
    have h0 : 0 < probs.length := List.length_pos.mpr hne
    rw [Part004.processedAux_getD topK topP (Part004.sortDesc probs) 0 0 0
      (by rw [hlen]; exact h0)]
    simp only [List.take_zero, List.sum_nil, Nat.zero_add, zero_add]
    rw [Bool.and_eq_true, decide_eq_true_eq, decide_eq_true_eq]
    exact ⟨by omega, hP0⟩

/-- Witness for C4 at `probs = [1/10, 9/10]`, `topK = 5`, `topP = 1/2`: the
top sorted probability `9/10` alone exceeds `topP` and yet position 0 stays
active. -/
theorem C4_witness :
    ((Part004.processedTokens [1/10, 9/10] 5 (1/2)).getD 0 (0, false)).2 = true ∧
    Part004.sortDesc [1/10, 9/10] = [9/10, 1/10] ∧
    (1 : ℚ)/2 < 9/10 := by
  refine ⟨(C4_topk_topp_filter [1/10, 9/10] 5 (1/2) (by simp) (by norm_num)
    (by norm_num) (by norm_num) ?_ ?_).2.2, ?_, by norm_num⟩
  · intro p hp
    rcases List.mem_cons.mp hp with rfl | hp'
    · norm_num
    · rcases List.mem_cons.mp hp' with rfl | hp''
      · norm_num
      · cases hp''
  · norm_num [List.sum_cons]
  · unfold Part004.sortDesc
    show Part004.insertDesc (1/10) (Part004.insertDesc (9/10) []) = _
    rw [show Part004.insertDesc (9/10) [] = [9/10] from rfl]
    unfold Part004.insertDesc
    rw [if_neg (by norm_num)]
    rfl

namespace Part005

open LLMSim

/-- `src/unnamed/part_005`: the fixed vocabulary `VOCAB`. -/
def VOCAB : List (List Char) :=
  [("<START>").toList, ("I").toList, ("like").toList, ("love").toList,
   ("hate").toList, ("cats").toList, ("dogs").toList, ("code").toList,
   ("math").toList, ("pizza").toList, ("is").toList, ("are").toList,
   ("fun").toList, ("hard").toList, ("tasty").toList, ("very").toList,
   ("and").toList, (".").toList, ("!").toList, ("<END>").toList,
   ("<UNK>").toList]

/-- `part_005` `tokenize`: split the prompt on whitespace
(`"".split(/\s+/)` yields `[""]`, which the vocabulary lookup turns into
`<UNK>`), strip punctuation from each word (`t.replace(/[.,!]/g, "")`),
look it up in `VOCAB` (else `<UNK>`), and prepend `<START>`. -/
def tokenize (text : List Char) : List (List Char) :=
  let rawTokens := if splitWs text = [] then [([] : List Char)] else splitWs text
  ("<START>").toList :: rawTokens.map fun t =>
    let clean := t.filter fun c => !isPunctChar c
    if clean ∈ VOCAB then clean else ("<UNK>").toList

/-- `VOCAB.indexOf(t)`: the index of the first occurrence, `-1` if absent. -/
def jsIndexOf (l : List (List Char)) (x : List Char) : ℤ :=
  match findIdxA x l with
  | some i => (i : ℤ)
  | none => -1

/-- `part_005` `addVectors`: `v1.map((val, i) => val + (v2[i] || 0))`. -/
def addVectors (v1 v2 : List ℚ) : List ℚ :=
  v1.mapIdx fun i val => val + v2.getD i 0

/-- `part_005` `matMulVector`: column `j` of the result is
`sum_i vec[i] * matrix[i][j]`, with `cols = matrix[0].length`. -/
def matMulVector (vec : List ℚ) (matrix : Matrix) : List ℚ :=
  (List.range (matrix.headD []).length).map fun j =>
    ((List.range vec.length).map fun i =>
      vec.getD i 0 * (matrix.getD i []).getD j 0).sum

/-- `part_005` `dotProduct` for the equal-length rows the pipeline feeds it. -/
def dotProduct (v1 v2 : List ℚ) : ℚ := (List.zipWith (· * ·) v1 v2).sum

/-- `part_005` `softmax(logits, temperature)`: numerically-stable form, no
rounding. -/
def softmax (m : JsMath) (temperature : ℚ) (logits : List ℚ) : List ℚ :=
  let mx := maxList logits
  let exps := logits.map fun l => m.exp ((l - mx) / temperature)
  exps.map fun e => e / exps.sum

/-- `part_005` `relu`. -/
def relu (vec : List ℚ) : List ℚ := vec.map fun x => max 0 x

/-- The weight set built in the `useMemo` at `part_005` lines 262–274. -/
structure Weights where
  wQ : Matrix
  wK : Matrix
  wV : Matrix
  wO : Matrix
  wFF1 : Matrix
  wFF2 : Matrix
  wVocab : Matrix
  embeddings : Matrix
  posEncodings : Matrix

/-- `part_005` weight construction: one `generateMatrix` call per matrix,
with the distinct seeds 1–9. -/
def mkWeights (m : JsMath) (embedDim : Nat) : Weights :=
  ⟨Part000.generateMatrix m embedDim embedDim 1,
   Part000.generateMatrix m embedDim embedDim 2,
   Part000.generateMatrix m embedDim embedDim 3,
   Part000.generateMatrix m embedDim embedDim 4,
   Part000.generateMatrix m embedDim (embedDim * 2) 5,
   Part000.generateMatrix m (embedDim * 2) embedDim 6,
   Part000.generateMatrix m embedDim VOCAB.length 7,
   Part000.generateMatrix m VOCAB.length embedDim 8,
   Part000.generateMatrix m 20 embedDim 9⟩

/-- The snapshot record returned by `runPipeline`. -/
structure PipelineResult where
  tokens : List (List Char)
  embBase : Matrix
  embPos : Matrix
  finalInputs : Matrix
  Q : Matrix
  K : Matrix
  V : Matrix
  attentionScores : Matrix
  attentionWeights : Matrix
  ffnHidden : Matrix
  finalBlockOutput : Matrix
  logits : List ℚ
  probs : List ℚ

/-- Embedding-table row for a token id (`weights.embeddings[id]`; an
out-of-range id would be `undefined` and crash the JS pipeline — it is
unreachable because `tokenize` only emits vocabulary members). -/
def embRow (w : Weights) (tid : ℤ) : List ℚ :=
  if 0 ≤ tid ∧ tid < (w.embeddings.length : ℤ) then w.embeddings.getD tid.toNat []
  else []

/-- `part_005` `runPipeline`: embedding + positional encoding, single-head
causal self-attention (scores divided by `sqrt(embedDim)`, softmax at
temperature 1), residual, two-layer FFN with ReLU, second residual, then
logits from the **last** position only and `softmax(logits, temperature)`.
Faithful for contexts of at most 20 tokens (beyond that the JS code reads an
`undefined` positional-encoding row and throws). -/
def runPipeline (m : JsMath) (w : Weights) (temperature : ℚ) (embedDim : Nat)
    (currentTokens : List (List Char)) : PipelineResult :=
  let contextSize := currentTokens.length
  let tokenIds := currentTokens.map fun t => jsIndexOf VOCAB t
  let embBase := tokenIds.map fun tid => embRow w tid
  let embPos := (List.range contextSize).map fun pos => w.posEncodings.getD pos []
  let X := tokenIds.mapIdx fun pos tid =>
    addVectors (embRow w tid) (w.posEncodings.getD pos [])
  let Q := X.map fun vec => matMulVector vec w.wQ
  let K := X.map fun vec => matMulVector vec w.wK
  let V := X.map fun vec => matMulVector vec w.wV
  let attentionScores := (List.range contextSize).map fun i =>
    (List.range contextSize).map fun j =>
      if j > i then -1000000000
      else dotProduct (Q.getD i []) (K.getD j []) / m.sqrt (embedDim : ℚ)
  let attentionWeights := attentionScores.map fun row => softmax m 1 row
  let attentionOutput := attentionWeights.map fun weightsRow =>
    (List.range embedDim).map fun dIdx =>
      ((List.range contextSize).map fun j =>
        weightsRow.getD j 0 * (V.getD j []).getD dIdx 0).sum
  let postAttention := attentionOutput.mapIdx fun i vec => addVectors vec (X.getD i [])
  let ffnHidden := postAttention.map fun vec => relu (matMulVector vec w.wFF1)
  let ffnOutput := ffnHidden.map fun vec => matMulVector vec w.wFF2
  let finalBlockOutput := ffnOutput.mapIdx fun i vec =>
    addVectors vec (postAttention.getD i [])
  let lastState := finalBlockOutput.getLastD []
  let logits := matMulVector lastState w.wVocab
  let probs := softmax m temperature logits
  ⟨currentTokens, embBase, embPos, X, Q, K, V, attentionScores, attentionWeights,
    ffnHidden, finalBlockOutput, logits, probs⟩

/-- The inline weighted-selection loop of `handleGenerateStep`:
`nextTokenIndex = 0; accumulated += probs[i]; if (r <= accumulated) break`. -/
def sampleAux (r : ℚ) : List ℚ → Nat → ℚ → Option Nat
  | [], _, _ => none
  | p :: rest, i, acc =>
    let acc2 := acc + p
    if r ≤ acc2 then some i else sampleAux r rest (i + 1) acc2

/-- The sampled index: the first `i` whose cumulative probability reaches
`r`, defaulting to index 0 when the loop never breaks. -/
def sampleNextIndex (r : ℚ) (probs : List ℚ) : Nat :=
  (sampleAux r probs 0 0).getD 0

/-- The component state read and written by `handleGenerateStep` and the
termination effect: prompt, generated tokens, published snapshot, auto-run
flag. -/
structure GenState where
  inputText : List Char
  generatedTokens : List (List Char)
  pipelineData : Option PipelineResult
  isAutoRunning : Bool

/-- `part_005` `handleGenerateStep` (with `Math.random()` passed in as `r`):
no-op when the context already ends in `<END>` or `maxTokens` tokens were
generated; otherwise run the pipeline over the full context, publish the
snapshot, sample one token and append it. -/
def handleGenerateStep (m : JsMath) (w : Weights) (temperature : ℚ)
    (embedDim maxTokens : Nat) (r : ℚ) (s : GenState) : GenState :=
  let fullSequence := tokenize s.inputText ++ s.generatedTokens
  if fullSequence.getLastD [] = ("<END>").toList then s
  else if maxTokens ≤ s.generatedTokens.length then s
  else
    let results := runPipeline m w temperature embedDim fullSequence
    let nextTokenIndex := sampleNextIndex r results.probs
    let nextToken := VOCAB.getD nextTokenIndex []
    { s with pipelineData := some results,
             generatedTokens := s.generatedTokens ++ [nextToken] }

/-- The `useEffect` at `part_005` lines 427–433: once the generated count
reaches `maxTokens` or the last generated token is `<END>`, auto-run is
switched off (the controller returns to idle). -/
def terminationEffect (maxTokens : Nat) (s : GenState) : GenState :=
  if maxTokens ≤ s.generatedTokens.length ∨
      s.generatedTokens.getLastD [] = ("<END>").toList then
    { s with isAutoRunning := false }
  else s

end Part005

namespace LLMSim

theorem getLastD_of_ne_nil {α : Type} (b : List α) (hb : b ≠ []) (d d' : α) :
    b.getLastD d = b.getLastD d' := by
  match b, hb with
  | x :: xs, _ => rw [List.getLastD_cons, List.getLastD_cons]

theorem getLastD_append_right {α : Type} (a b : List α) (hb : b ≠ []) :
    ∀ d : α, (a ++ b).getLastD d = b.getLastD d := by
  induction a with
  | nil => intro d; rfl
  | cons x xs ih =>
    intro d
    rw [List.cons_append, List.getLastD_cons, ih x]
    exact getLastD_of_ne_nil b hb x d

theorem list_sum_nonneg (l : List ℚ) (h : ∀ p ∈ l, 0 ≤ p) : 0 ≤ l.sum := by
  induction l with
  | nil => simp
  | cons p rest ih =>
    rw [List.sum_cons]
    have hp := h p (by simp)
    have hr := ih (fun q hq => h q (by simp [hq]))
    linarith

theorem generateMatrix_grid (m : JsMath) (rows cols : Nat) (seed : ℚ) :
    IsGrid (Part000.generateMatrix m rows cols seed) rows cols := by
  refine ⟨?_, ?_⟩
  · unfold Part000.generateMatrix
    rw [List.length_map, List.length_range]
  · intro row hrow
    simp only [Part000.generateMatrix, List.mem_map] at hrow
    obtain ⟨i, -, rfl⟩ := hrow
    rw [List.length_map, List.length_range]

end LLMSim

namespace Part005

open LLMSim

theorem matMulVector_length (vec : List ℚ) (M : Matrix) :
    (matMulVector vec M).length = (M.headD []).length := by
  simp [matMulVector]

theorem softmaxT_length (m : JsMath) (temperature : ℚ) (l : List ℚ) :
    (softmax m temperature l).length = l.length := by
  simp [softmax]

theorem sampleAux_some_lt (r : ℚ) :
    ∀ (l : List ℚ) (i : Nat) (acc : ℚ) (j : Nat),
      sampleAux r l i acc = some j → j < i + l.length := by
  intro l
  induction l with
  | nil => intro i acc j h; cases h
  | cons p rest ih =>
    intro i acc j h
    unfold sampleAux at h
    by_cases hr : r ≤ acc + p
    · rw [if_pos hr] at h
      cases h
      simp
    · rw [if_neg hr] at h
      have := ih (i + 1) (acc + p) j h
      simp only [List.length_cons]
      omega

theorem sampleAux_none_of_sum_lt (r : ℚ) :
    ∀ (l : List ℚ) (i : Nat) (acc : ℚ),
      (∀ p ∈ l, 0 ≤ p) → acc + l.sum < r → sampleAux r l i acc = none := by
  intro l
  induction l with
  | nil => intro i acc _ _; rfl
  | cons p rest ih =>
    intro i acc hnn hlt
    have hrest : (0:ℚ) ≤ rest.sum :=
      list_sum_nonneg rest (fun q hq => hnn q (by simp [hq]))
    rw [List.sum_cons] at hlt
    unfold sampleAux
    rw [if_neg (by push_neg; linarith)]
    exact ih (i + 1) (acc + p) (fun q hq => hnn q (by simp [hq])) (by linarith)

theorem sampleNextIndex_lt (r : ℚ) (probs : List ℚ) (hne : probs ≠ []) :
    sampleNextIndex r probs < probs.length := by
  unfold sampleNextIndex
  cases h : sampleAux r probs 0 0 with
  | none =>
    simp only [h, Option.getD_none]
    exact List.length_pos.mpr hne
  | some j =>
    have := sampleAux_some_lt r probs 0 0 j h
    simpa [h] using this

end Part005

/-- C9: `runPipeline` computes the logits as the product of the **last**
context position's final block output with the vocabulary projection only
(`logits = matMulVector(lastState, wVocab)`), so the logits depend on no
earlier position, and the logits vector has length `|V| = 21`. -/
theorem C9_output_projects_last_row (m : LLMSim.JsMath) (temperature : ℚ)
    (embedDim : Nat) (hd : 0 < embedDim) (tokens : List (List Char))
    (hne : tokens ≠ []) (hlen : tokens.length ≤ 20) :
    (Part005.runPipeline m (Part005.mkWeights m embedDim) temperature embedDim
        tokens).logits
      = Part005.matMulVector
          ((Part005.runPipeline m (Part005.mkWeights m embedDim) temperature embedDim
              tokens).finalBlockOutput.getLastD [])
          (Part005.mkWeights m embedDim).wVocab ∧
    (Part005.runPipeline m (Part005.mkWeights m embedDim) temperature embedDim
        tokens).logits.length = Part005.VOCAB.length := by
  constructor
  · rfl
  · show (Part005.matMulVector _ _).length = _
    rw [Part005.matMulVector_length]
    exact LLMSim.grid_headD_length
      (LLMSim.generateMatrix_grid m embedDim Part005.VOCAB.length 7) hd

/-- Witness for C9 at `embedDim = 4` and the single-token context. -/
theorem C9_witness :
    (Part005.runPipeline mWitness (Part005.mkWeights mWitness 4) 1 4
      [("<START>").toList]).logits.length = Part005.VOCAB.length :=
  (C9_output_projects_last_row mWitness 1 4 (by norm_num) [("<START>").toList]
    (by simp) (by simp)).2

/-- C10: the weighted selection inside the generation step is total — for
every `r` it returns an index below the probability vector's length (and
below `|V|` for the pipeline's own probability vector) — and whenever `r`
exceeds the total cumulative sum of a nonnegative probability vector (as can
happen in the source when floating-point probabilities sum to slightly less
than 1), it falls back to index 0, the first vocabulary entry, not the most
probable token. -/
theorem C10_sample_total_defaults_to_zero (r : ℚ) (probs : List ℚ)
    (hne : probs ≠ []) :
    Part005.sampleNextIndex r probs < probs.length ∧
    ((∀ p ∈ probs, 0 ≤ p) → probs.sum < r → Part005.sampleNextIndex r probs = 0) ∧
    (∀ (m : LLMSim.JsMath) (temperature : ℚ) (embedDim : Nat), 0 < embedDim →
      ∀ tokens : List (List Char),
        Part005.sampleNextIndex r
            (Part005.runPipeline m (Part005.mkWeights m embedDim) temperature embedDim
              tokens).probs
          < Part005.VOCAB.length) := by
  refine ⟨Part005.sampleNextIndex_lt r probs hne, ?_, ?_⟩
  · intro hnn hlt
    unfold Part005.sampleNextIndex
    rw [Part005.sampleAux_none_of_sum_lt r probs 0 0 hnn (by simpa using hlt)]
    rfl
  · intro m temperature embedDim hd tokens
    have hplen : (Part005.runPipeline m (Part005.mkWeights m embedDim) temperature
        embedDim tokens).probs.length = Part005.VOCAB.length := by
      show (Part005.softmax _ _ (Part005.matMulVector _ _)).length = _
      rw [Part005.softmaxT_length, Part005.matMulVector_length]
      exact LLMSim.grid_headD_length
        (LLMSim.generateMatrix_grid m embedDim Part005.VOCAB.length 7) hd
    have hpne : (Part005.runPipeline m (Part005.mkWeights m embedDim) temperature
        embedDim tokens).probs ≠ [] := by
      intro h
      rw [h] at hplen
      simp [Part005.VOCAB] at hplen
    have := Part005.sampleNextIndex_lt r _ hpne
    rwa [hplen] at this

/-- Witness for C10 at `r = 2 > 3/4 = Σ probs`. -/
theorem C10_witness :
    Part005.sampleNextIndex 2 [1/2, 1/4] = 0 ∧
    Part005.sampleNextIndex 2 [1/2, 1/4] < 2 := by
  have h := C10_sample_total_defaults_to_zero 2 [1/2, 1/4] (by simp)
  refine ⟨h.2.1 ?_ ?_, by simpa using h.1⟩
  · intro p hp
    rcases List.mem_cons.mp hp with rfl | hp'
    · norm_num
    · rcases List.mem_cons.mp hp' with rfl | hp''
      · norm_num
      · cases hp''
  · norm_num [List.sum_cons]

/-- C5: one generation step appends exactly one token to the context and
replaces the snapshot (first conjunct); the generated-token count never
exceeds `maxTokens` (second conjunct); and invoking the step after the
terminal condition — count reached `maxTokens`, or the last sampled token is
`<END>` — is a silent no-op leaving the whole state (context and snapshot)
unchanged, with auto-run switched off by the termination effect (third
conjunct).  Stated for contexts of at most 20 tokens, the region where the
embedding of `runPipeline` is faithful. -/
theorem C5_generate_step_controller (m : LLMSim.JsMath) (w : Part005.Weights)
    (temperature : ℚ) (embedDim maxTokens : Nat) (r : ℚ) (s : Part005.GenState)
    (hctx : (Part005.tokenize s.inputText).length + s.generatedTokens.length ≤ 20) :
    (¬((Part005.tokenize s.inputText ++ s.generatedTokens).getLastD []
          = ("<END>").toList) →
      s.generatedTokens.length < maxTokens →
      (Part005.handleGenerateStep m w temperature embedDim maxTokens r s).generatedTokens
          = s.generatedTokens ++
            [Part005.VOCAB.getD (Part005.sampleNextIndex r
              (Part005.runPipeline m w temperature embedDim
                (Part005.tokenize s.inputText ++ s.generatedTokens)).probs) []] ∧
      (Part005.handleGenerateStep m w temperature embedDim maxTokens r
          s).generatedTokens.length = s.generatedTokens.length + 1 ∧
      (Part005.handleGenerateStep m w temperature embedDim maxTokens r s).pipelineData
          = some (Part005.runPipeline m w temperature embedDim
              (Part005.tokenize s.inputText ++ s.generatedTokens))) ∧
    (s.generatedTokens.length ≤ maxTokens →
      (Part005.handleGenerateStep m w temperature embedDim maxTokens r
          s).generatedTokens.length ≤ maxTokens) ∧
    ((maxTokens ≤ s.generatedTokens.length ∨
        s.generatedTokens.getLastD [] = ("<END>").toList) →
      Part005.handleGenerateStep m w temperature embedDim maxTokens r s = s ∧
      (Part005.terminationEffect maxTokens s).isAutoRunning = false) := by
  refine ⟨?_, ?_, ?_⟩
  · intro hend hlen
    have hstep : Part005.handleGenerateStep m w temperature embedDim maxTokens r s
        = { s with
            pipelineData := some (Part005.runPipeline m w temperature embedDim
              (Part005.tokenize s.inputText ++ s.generatedTokens)),
            generatedTokens := s.generatedTokens ++
              [Part005.VOCAB.getD (Part005.sampleNextIndex r
                (Part005.runPipeline m w temperature embedDim
                  (Part005.tokenize s.inputText ++ s.generatedTokens)).probs) []] } := by
      unfold Part005.handleGenerateStep
      rw [if_neg hend, if_neg (by omega)]
    rw [hstep]
    refine ⟨rfl, ?_, rfl⟩
    simp
  · intro hle
    by_cases hend : (Part005.tokenize s.inputText ++ s.generatedTokens).getLastD []
        = ("<END>").toList
    · unfold Part005.handleGenerateStep
      rw [if_pos hend]
      exact hle
    · by_cases hmax : maxTokens ≤ s.generatedTokens.length
      · unfold Part005.handleGenerateStep
        rw [if_neg hend, if_pos hmax]
        exact hle
      · have hstep : (Part005.handleGenerateStep m w temperature embedDim maxTokens r
            s).generatedTokens.length = s.generatedTokens.length + 1 := by
          unfold Part005.handleGenerateStep
          rw [if_neg hend, if_neg hmax]
          simp
        rw [hstep]
        omega
  · intro hterm
    have hstep : Part005.handleGenerateStep m w temperature embedDim maxTokens r s = s := by
      unfold Part005.handleGenerateStep
      rcases hterm with hmax | hend
      · by_cases hend : (Part005.tokenize s.inputText ++ s.generatedTokens).getLastD []
            = ("<END>").toList
        · rw [if_pos hend]
        · rw [if_neg hend, if_pos hmax]
      · have hne : s.generatedTokens ≠ [] := by
          intro h
          rw [h] at hend
          simp at hend
        have hfull : (Part005.tokenize s.inputText ++ s.generatedTokens).getLastD []
            = ("<END>").toList := by
          rw [LLMSim.getLastD_append_right _ _ hne []]
          exact hend
        rw [if_pos hfull]
    refine ⟨hstep, ?_⟩
    unfold Part005.terminationEffect
    rw [if_pos hterm]

/-- Witness for C5 at a concrete state with `maxTokens = 0` (terminal by
count): the step is a no-op and the controller is idle. -/
theorem C5_witness :
    Part005.handleGenerateStep mWitness (Part005.mkWeights mWitness 4) 1 4 0 (1/2)
        ⟨("I like").toList, [], none, false⟩
      = ⟨("I like").toList, [], none, false⟩ ∧
    (Part005.terminationEffect 0 ⟨("I like").toList, [], none, false⟩).isAutoRunning
      = false :=
  (C5_generate_step_controller mWitness (Part005.mkWeights mWitness 4) 1 4 0 (1/2)
    ⟨("I like").toList, [], none, false⟩ (by decide)).2.2 (Or.inl (by norm_num))
